import Mathlib

/-!
Verification of the valsov/orchestrator core against its specification.

The development shallowly embeds the Go sources of the repository:
pure functions become Lean functions, Go maps become functions into
`Option`, effectful steps (HTTP calls, docker operations, stats
refreshes) are abstracted as oracle parameters, and `float64` values
that only ever feed exact comparisons are embedded as `ℚ` (the
load-aware score formulas, which involve real exponentials, are
embedded over `ℝ`).  Machine integers (`int`, `int64`) are embedded
as `Int`; no arithmetic in the verified fragments can overflow in Go.
-/

namespace Orchestrator

/-! ## Task state machine

Embeds the `task` package.  Two revisions of `state.go` ship with the
sources: the operative one (src/unnamed/part_014 lines 165-198, whose
transition table carries the restart edges used by the manager restart
path and the worker in-place-restart path) and a superseded revision
(src/task/state.go lines 13-31) lacking the `Running → Scheduled` and
`Failed → Scheduled` edges.  Both are embedded below. -/

inductive TaskState where
  | pending
  | scheduled
  | running
  | completed
  | failed
deriving DecidableEq, Fintype, Repr

/-- Transition table `stateTransitionMap` from src/unnamed/part_014 lines 179-185
(the revision whose comments document the restart edges). -/
def stateTransitionMap : TaskState → List TaskState
  | .pending => [.scheduled]
  | .scheduled => [.running, .failed]
  | .running => [.completed, .failed, .scheduled]
  | .completed => []
  | .failed => [.scheduled]

/-- Go helper: linear scan of a transition list, mirroring the `for` loop in
`ValidStateTransition`. -/
def listedIn (target : TaskState) : List TaskState → Bool
  | [] => false
  | s :: rest => if s = target then true else listedIn target rest

/-- The function `ValidStateTransition` from src/unnamed/part_014 lines 188-198. -/
def ValidStateTransition (current target : TaskState) : Bool :=
  if current = target then true
  else listedIn target (stateTransitionMap current)

/-- Superseded transition table from src/task/state.go lines 13-19. -/
def stateTransitionMapLegacy : TaskState → List TaskState
  | .pending => [.scheduled]
  | .scheduled => [.running, .failed]
  | .running => [.completed, .failed]
  | .completed => []
  | .failed => []

/-- The function `ValidStateTransition` as in the superseded revision
src/task/state.go lines 21-31. -/
def ValidStateTransitionLegacy (current target : TaskState) : Bool :=
  if current = target then true
  else listedIn target (stateTransitionMapLegacy current)

/-- Transition table exactly as worded in spec section 3, for the refinement
comparison demanded by C1. -/
def specTransitionTable : TaskState → List TaskState
  | .pending => [.scheduled]
  | .scheduled => [.running, .failed]
  | .running => [.completed, .failed, .scheduled]
  | .completed => []
  | .failed => [.scheduled]

/-- C1: `ValidStateTransition current target` is true iff `current = target` or
`target` is listed for `current` in the section-3 transition table; in
particular `Failed → Scheduled` and `Running → Scheduled` are accepted while
`Completed → Scheduled` is rejected. -/
theorem validStateTransition_matches_spec_table :
    (∀ current target : TaskState,
      ValidStateTransition current target = true ↔
        (current = target ∨ target ∈ specTransitionTable current)) ∧
    ValidStateTransition .failed .scheduled = true ∧
    ValidStateTransition .running .scheduled = true ∧
    ValidStateTransition .completed .scheduled = false := by
  decide

/-- C1 witness: the characterisation instantiated at the `Failed → Scheduled`
boundary case. -/
theorem validStateTransition_matches_spec_table_witness :
    ValidStateTransition .failed .scheduled = true ↔
      ((.failed : TaskState) = .scheduled ∨
        TaskState.scheduled ∈ specTransitionTable .failed) :=
  validStateTransition_matches_spec_table.1 .failed .scheduled

/-! ## Data model

`Task` from src/unnamed/part_014 lines 19-34.  UUIDs are embedded as `Nat`,
`float64 Cpu` as `ℚ`, `int64`/`int` as `Int`.  The `time.Time` fields
(`StartTime`, `FinishTime`) and the port collections (`ExposedPorts`,
`PortBindings`) are external library types never inspected by the verified
fragments and are omitted.  `Node` from src/node/node.go lines 11-21
(the external `Stats` snapshot field is likewise omitted; the scheduler
reads of it are abstracted as oracles). -/

structure Task where
  Id : Nat
  Name : String := ""
  ContainerId : String := ""
  State : TaskState := .pending
  Image : String := ""
  Cpu : ℚ := 0
  Memory : Int := 0
  Disk : Int := 0
  RestartPolicy : String := ""
  RestartCount : Int := 0
deriving DecidableEq, Repr

/-- `TaskEvent` from src/unnamed/part_014 lines 36-41 (timestamp omitted:
never read by the verified fragments). -/
structure TaskEvent where
  Id : Nat
  State : TaskState
  Task : Task
deriving DecidableEq, Repr

structure Node where
  Name : String
  Api : String := ""
  Role : String := ""
  Memory : Int := 0
  MemoryAllocated : Int := 0
  Disk : Int := 0
  DiskAllocated : Int := 0
  TaskCount : Int := 0
deriving DecidableEq, Repr

/-! ## Go map embedding

A Go `map[K]V` is embedded as `K → Option V`; indexing a map without a
comma-ok assignment yields the zero value of `V` when the key is absent,
which `read` reproduces via a `Zero` instance. -/

def GoMap (K V : Type) : Type := K → Option V

def GoMap.empty {K V : Type} : GoMap K V := fun _ => none

def GoMap.write {K V : Type} [DecidableEq K] (m : GoMap K V) (k : K) (v : V) :
    GoMap K V :=
  fun q => if q = k then some v else m q

/-- Go map indexing without the comma-ok form: absent keys read as the zero
value. -/
def GoMap.read {K V : Type} [Zero V] (m : GoMap K V) (k : K) : V :=
  (m k).getD 0

theorem GoMap.read_write {K V : Type} [DecidableEq K] [Zero V]
    (m : GoMap K V) (k : K) (v : V) : (m.write k v).read k = v := by
  simp [GoMap.read, GoMap.write]

theorem GoMap.read_write_ne {K V : Type} [DecidableEq K] [Zero V]
    (m : GoMap K V) (k q : K) (v : V) (h : q ≠ k) :
    (m.write k v).read q = m.read q := by
  simp [GoMap.read, GoMap.write, h]

/-! ## Store abstraction

`MemoryStore` from src/store/memory_store.go.  The backing Go map is
embedded as the list of stored values in map-iteration order (the order is
unspecified in Go; every claim here is order-insensitive) together with a
key view where needed.  Store errors distinguish the sentinel
`store.ErrKeyNotFound` (src/store/store.go line 5) from ad-hoc
`fmt.Errorf` errors and I/O errors, because src/worker/handlers.go
branches on the sentinel with `errors.Is`. -/

inductive StoreErr where
  | sentinelKeyNotFound
  | adhoc (msg : String)
  | io (msg : String)
deriving DecidableEq, Repr

/-- `MemoryStore.List` (src/store/memory_store.go lines 15-21): allocates a
slice of length `N` filled with zero values (`make([]TVal, len(s.Db))`) and
then appends every stored value to it.  `entries` is the multiset of stored
values in iteration order and `zero` the zero value of `TVal`. -/
def memoryStoreList {V : Type} (entries : List V) (zero : V) : List V :=
  List.replicate entries.length zero ++ entries

/-- `MemoryStore.Get` (src/store/memory_store.go lines 27-34): on a missing
key it builds a fresh error with `fmt.Errorf`, not the store sentinel. -/
def memoryStoreGet {V : Type} (db : GoMap Nat V) (key : Nat) :
    Except StoreErr V :=
  match db key with
  | some v => .ok v
  | none => .error (.adhoc "item with key not found")

/-! ## Worker REST surface

`StopTaskHandler` from src/worker/handlers.go lines 42-74.  The chi URL
parameter is the raw string; `uuid.Parse` is an external library call whose
outcome is passed in as `parsedUuid`.  The handler result is the HTTP status
code written. -/

def workerStopTaskHandlerStatus (db : GoMap Nat Task) (taskIdRaw : String)
    (parsedUuid : Option Nat) : Nat :=
  if taskIdRaw = "" then 400
  else
    match parsedUuid with
    | none => 400
    | some taskUuid =>
      match memoryStoreGet db taskUuid with
      | .error e => if e = .sentinelKeyNotFound then 404 else 500
      | .ok _ => 204

/-- C3: a well-formed UUID absent from the worker task store is answered with
500, not 404: `MemoryStore.Get` reports the missing key through an ad-hoc
`fmt.Errorf` error, so the handler's `errors.Is(err, store.ErrKeyNotFound)`
branch never fires and the request falls into the 500 arm. -/
theorem workerStopTaskHandler_missing_task_gives_500 :
    workerStopTaskHandlerStatus GoMap.empty
      "3fa85f64-5717-4562-b3fc-2c963f66afa6" (some 7) = 500 ∧
    memoryStoreGet (GoMap.empty (V := Task)) 7 =
      .error (.adhoc "item with key not found") := by
  constructor
  · rfl
  · rfl

/-- C4: a memory store holding exactly one entry answers `List` with two
elements, a zero-valued prefix followed by the stored value, because `List`
pre-allocates a slice of length `N` and then appends the `N` stored values. -/
theorem memoryStoreList_single_entry_doubles :
    (memoryStoreList [({ Id := 1 } : Task)] { Id := 0 }).length = 2 ∧
    memoryStoreList [({ Id := 1 } : Task)] { Id := 0 } =
      [{ Id := 0 }, { Id := 1 }] ∧
    (∀ (V : Type) (entries : List V) (zero : V),
      (memoryStoreList entries zero).length = 2 * entries.length) := by
  refine ⟨rfl, rfl, ?_⟩
  intro V entries zero
  simp [memoryStoreList]
  omega

/-! ## Manager health loop

`checkTasksHealth` from src/manager/manager.go lines 354-365 iterates the
stored tasks, skipping any task with `RestartCount >= 3` and invoking
`restartTask` on those whose state is `Failed`.  `restartTask`
(lines 367-403) first rewrites the stored task (`State = Scheduled`,
`RestartCount++`), then synthesizes a `TaskEvent{State: Running}` and posts
it to the previously bound worker; the HTTP tail is external. -/

def healthRestartTargets : List Task → List Task
  | [] => []
  | t :: rest =>
    if t.RestartCount ≥ 3 then healthRestartTargets rest
    else if t.State = .failed then t :: healthRestartTargets rest
    else healthRestartTargets rest

/-- Store rewrite performed by `restartTask` (src/manager/manager.go
lines 373-379) before the HTTP call. -/
def restartTaskStoreUpdate (t : Task) : Task :=
  { t with State := .scheduled, RestartCount := t.RestartCount + 1 }

/-- Event synthesized by `restartTask` (src/manager/manager.go lines 381-386)
for the already-bound worker; its target state is `Running`.  The fresh
`uuid.New()` is passed in as `freshId`. -/
def restartTaskEvent (freshId : Nat) (t : Task) : TaskEvent :=
  { Id := freshId, State := .running, Task := t }

/-- C7: one pass of the manager health loop restarts a stored task iff its
restart count is under 3 and its state is `Failed`; the restart rewrites the
task to `Scheduled` with the count incremented, and a task with
`RestartCount ≥ 3` is never acted on. -/
theorem healthLoop_restarts_iff_failed_under_three :
    ∀ (tasks : List Task) (t : Task),
      (t ∈ healthRestartTargets tasks ↔
        (t ∈ tasks ∧ t.RestartCount < 3 ∧ t.State = .failed)) ∧
      (restartTaskStoreUpdate t).State = .scheduled ∧
      (restartTaskStoreUpdate t).RestartCount = t.RestartCount + 1 ∧
      (t.RestartCount ≥ 3 → t ∉ healthRestartTargets tasks) := by
  intro tasks t
  have hmem : ∀ (l : List Task),
      t ∈ healthRestartTargets l ↔
        (t ∈ l ∧ t.RestartCount < 3 ∧ t.State = .failed) := by
    intro l
    induction l with
    | nil => simp [healthRestartTargets]
    | cons u rest ih =>
      by_cases hc : u.RestartCount ≥ 3
      · simp only [healthRestartTargets, if_pos hc, ih, List.mem_cons]
        constructor
        · rintro ⟨hm, hlt, hf⟩
          exact ⟨Or.inr hm, hlt, hf⟩
        · rintro ⟨hm | hm, hlt, hf⟩
          · subst hm; omega
          · exact ⟨hm, hlt, hf⟩
      · by_cases hf : u.State = .failed
        · simp only [healthRestartTargets, if_neg hc, if_pos hf, List.mem_cons, ih]
          constructor
          · rintro (hm | ⟨hm, hlt, hst⟩)
            · subst hm; exact ⟨Or.inl rfl, by omega, hf⟩
            · exact ⟨Or.inr hm, hlt, hst⟩
          · rintro ⟨hm | hm, hlt, hst⟩
            · subst hm; exact Or.inl rfl
            · exact Or.inr ⟨hm, hlt, hst⟩
        · simp only [healthRestartTargets, if_neg hc, if_neg hf, List.mem_cons, ih]
          constructor
          · rintro ⟨hm, hlt, hst⟩
            exact ⟨Or.inr hm, hlt, hst⟩
          · rintro ⟨hm | hm, hlt, hst⟩
            · subst hm; exact absurd hst hf
            · exact ⟨hm, hlt, hst⟩
  refine ⟨hmem tasks, rfl, rfl, ?_⟩
  intro hge hmemT
  have := (hmem tasks).mp hmemT
  omega

/-- C7 witness: a concrete failed task with restart count 0 is restarted and
rewritten, while a count-3 task is skipped. -/
theorem healthLoop_restarts_iff_failed_under_three_witness :
    (({ Id := 1, State := .failed, RestartCount := 0 } : Task) ∈
      healthRestartTargets
        [{ Id := 1, State := .failed, RestartCount := 0 }]) ∧
    (restartTaskStoreUpdate
      { Id := 1, State := .failed, RestartCount := 0 }).State = .scheduled ∧
    (({ Id := 2, State := .failed, RestartCount := 3 } : Task) ∉
      healthRestartTargets
        [{ Id := 2, State := .failed, RestartCount := 3 }]) := by
  refine ⟨?_, ?_, ?_⟩
  · exact (healthLoop_restarts_iff_failed_under_three
      [{ Id := 1, State := .failed, RestartCount := 0 }]
      { Id := 1, State := .failed, RestartCount := 0 }).1.mpr
      ⟨by decide, by decide, by decide⟩
  · exact (healthLoop_restarts_iff_failed_under_three []
      { Id := 1, State := .failed, RestartCount := 0 }).2.1
  · exact (healthLoop_restarts_iff_failed_under_three
      [{ Id := 2, State := .failed, RestartCount := 3 }]
      { Id := 2, State := .failed, RestartCount := 3 }).2.2.2 (by decide)

/-! ## Worker runner

`runNextTask` from src/worker/worker.go lines 143-182.  The docker calls
inside `StartTask`/`StopTask` are external; the embedding records which
branch of the dispatch the runner enters.  The store `Get` of the current
worker fails exactly on a missing key (src/store/memory_store.go
lines 27-34), in which case the received task is inserted and used as the
stored task. -/

inductive RunOutcome where
  /-- `Scheduled` branch: `StartTask` is invoked, preceded by a `StopTask`
  when `ContainerId` is non-empty (in-place restart). -/
  | startPath (t : Task) (stopFirst : Bool)
  /-- `Completed` branch: `StopTask` is invoked. -/
  | stopPath (t : Task)
  /-- Default branch: "running a task shouldn't be represented with this
  state". -/
  | wrongStateErr (s : TaskState)
  /-- Rejection: "invalid state transition from current to target". -/
  | invalidTransitionErr (current target : TaskState)
deriving DecidableEq, Repr

def runNextTask (db : GoMap Nat Task) (queuedTask : Task) :
    RunOutcome × GoMap Nat Task :=
  let resolved : Task × GoMap Nat Task :=
    match db queuedTask.Id with
    | some t => (t, db)
    | none => (queuedTask, db.write queuedTask.Id queuedTask)
  let storedTask := resolved.1
  let db2 := resolved.2
  if ValidStateTransition storedTask.State queuedTask.State then
    match queuedTask.State with
    | .scheduled => (.startPath queuedTask (queuedTask.ContainerId ≠ ""), db2)
    | .completed => (.stopPath queuedTask, db2)
    | s => (.wrongStateErr s, db2)
  else
    (.invalidTransitionErr storedTask.State queuedTask.State, db2)

/-- C9: a task event whose task id is absent from the worker store is first
inserted and then checked against that just-inserted copy, so the transition
check compares the state with itself and always passes: whatever the state
(`Completed`, `Failed` and `Running` included), the invalid-transition
rejection is unreachable and the runner proceeds to the state dispatch. -/
theorem runNextTask_unknown_task_never_rejected :
    ∀ (db : GoMap Nat Task) (queuedTask : Task),
      db queuedTask.Id = none →
      ValidStateTransition queuedTask.State queuedTask.State = true ∧
      (runNextTask db queuedTask).2 queuedTask.Id = some queuedTask ∧
      (∀ c t : TaskState,
        (runNextTask db queuedTask).1 ≠ .invalidTransitionErr c t) ∧
      (runNextTask db queuedTask).1 =
        (match queuedTask.State with
          | .scheduled => .startPath queuedTask (queuedTask.ContainerId ≠ "")
          | .completed => .stopPath queuedTask
          | s => .wrongStateErr s) := by
  intro db queuedTask habs
  have hself : ValidStateTransition queuedTask.State queuedTask.State = true := by
    unfold ValidStateTransition
    simp
  have hrun : runNextTask db queuedTask =
      ((match queuedTask.State with
        | .scheduled => .startPath queuedTask (queuedTask.ContainerId ≠ "")
        | .completed => .stopPath queuedTask
        | s => .wrongStateErr s),
        db.write queuedTask.Id queuedTask) := by
    unfold runNextTask
    rw [habs]
    simp only [hself, if_true]
    cases queuedTask.State <;> rfl
  refine ⟨hself, ?_, ?_, ?_⟩
  · rw [hrun]
    simp [GoMap.write]
  · intro c t
    rw [hrun]
    cases hs : queuedTask.State <;> simp
  · rw [hrun]

/-- C9 witness: a never-before-seen task arriving directly in state
`Completed` passes the transition check and reaches the stop branch. -/
theorem runNextTask_unknown_task_never_rejected_witness :
    ValidStateTransition TaskState.completed TaskState.completed = true ∧
    (runNextTask GoMap.empty
      { Id := 5, State := .completed }).1 =
      .stopPath { Id := 5, State := .completed } := by
  have h := runNextTask_unknown_task_never_rejected GoMap.empty
    { Id := 5, State := .completed } rfl
  exact ⟨h.1, h.2.2.2⟩

/-! ## Load-aware scheduler: candidate filter

`checkDisk` and `Epvm.selectCandidateNodes` from src/scheduler/epvm.go
lines 29-37 and 89-91. -/

def checkDisk (t : Task) (diskAvailable : Int) : Bool :=
  t.Disk ≤ diskAvailable

def epvmSelectCandidateNodes (t : Task) : List Node → List Node
  | [] => []
  | n :: rest =>
    if checkDisk t (n.Disk - n.DiskAllocated) then
      n :: epvmSelectCandidateNodes t rest
    else
      epvmSelectCandidateNodes t rest

/-! ## Scheduler interface and the manager's worker selection

`selectWorker` from src/manager/manager.go lines 429-436.  The scheduler is
the `scheduler.Scheduler` interface; its `Score` implementation performs
HTTP stats refreshes, so it enters the model as an oracle producing the
score map.  The Go return pair `(*node.Node, error)` is embedded as
`Option Node × Option String`. -/

structure SchedulerModel where
  selectCandidateNodes : Task → List Node → List Node
  score : Task → List Node → GoMap String ℚ
  pick : GoMap String ℚ → List Node → Option Node

def selectWorker (sched : SchedulerModel) (t : Task) (workerNodes : List Node) :
    Option Node × Option String :=
  let candidates := sched.selectCandidateNodes t workerNodes
  if candidates.length = 0 then
    (none, some "no available candidates match resource request for task")
  else
    (sched.pick (sched.score t candidates) candidates, none)

/-- C8: the load-aware candidate filter keeps exactly the nodes with
`task.Disk ≤ node.Disk - node.DiskAllocated`, and an empty candidate set
makes `selectWorker` return an error instead of a node. -/
theorem epvmFilter_keeps_disk_fitting_nodes :
    ∀ (t : Task) (nodes : List Node),
      (∀ n : Node,
        n ∈ epvmSelectCandidateNodes t nodes ↔
          (n ∈ nodes ∧ t.Disk ≤ n.Disk - n.DiskAllocated)) ∧
      (∀ score pick,
        epvmSelectCandidateNodes t nodes = [] →
          selectWorker
            { selectCandidateNodes := epvmSelectCandidateNodes,
              score := score, pick := pick } t nodes =
            (none, some "no available candidates match resource request for task")) := by
  intro t nodes
  constructor
  · intro n
    induction nodes with
    | nil => simp [epvmSelectCandidateNodes]
    | cons u rest ih =>
      by_cases hd : checkDisk t (u.Disk - u.DiskAllocated)
      · simp only [epvmSelectCandidateNodes, if_pos hd, List.mem_cons, ih]
        constructor
        · rintro (hm | ⟨hm, hle⟩)
          · subst hm
            exact ⟨Or.inl rfl, by simpa [checkDisk] using hd⟩
          · exact ⟨Or.inr hm, hle⟩
        · rintro ⟨hm | hm, hle⟩
          · subst hm; exact Or.inl rfl
          · exact Or.inr ⟨hm, hle⟩
      · simp only [epvmSelectCandidateNodes, if_neg hd, List.mem_cons, ih]
        constructor
        · rintro ⟨hm, hle⟩
          exact ⟨Or.inr hm, hle⟩
        · rintro ⟨hm | hm, hle⟩
          · subst hm
            exact absurd (by simpa [checkDisk] using hle) hd
          · exact ⟨hm, hle⟩
  · intro score pick hempty
    simp [selectWorker, hempty]

/-- C8 witness: a task needing 5 disk units against a single node with 3
free units yields an empty candidate set and a "no candidates" error. -/
theorem epvmFilter_keeps_disk_fitting_nodes_witness :
    (({ Name := "w1", Disk := 3, DiskAllocated := 0 } : Node) ∉
      epvmSelectCandidateNodes { Id := 1, Disk := 5 }
        [{ Name := "w1", Disk := 3, DiskAllocated := 0 }]) ∧
    selectWorker
      { selectCandidateNodes := epvmSelectCandidateNodes,
        score := fun _ _ => GoMap.empty, pick := fun _ _ => none }
      { Id := 1, Disk := 5 }
      [{ Name := "w1", Disk := 3, DiskAllocated := 0 }] =
      (none, some "no available candidates match resource request for task") := by
  constructor
  · intro hmem
    have h := (epvmFilter_keeps_disk_fitting_nodes { Id := 1, Disk := 5 }
      [{ Name := "w1", Disk := 3, DiskAllocated := 0 }]).1
      { Name := "w1", Disk := 3, DiskAllocated := 0 }
    have h2 := (h.mp hmem).2
    simp only [] at h2
    omega
  · exact (epvmFilter_keeps_disk_fitting_nodes { Id := 1, Disk := 5 }
      [{ Name := "w1", Disk := 3, DiskAllocated := 0 }]).2
      (fun _ _ => GoMap.empty) (fun _ _ => none) rfl

/-! ## Manager dispatch: sendWork

`sendWork` from src/manager/manager.go lines 149-239.  The event store put,
the JSON marshalling and the HTTP POST tail are external; the embedding
records which path of the dispatch is taken.  `selectWorkerOracle` stands
for the `selectWorker` call (`some name` names the chosen node,
`none` is the error case).  Note the map lookup on line 159 of the source:
`taskWorker, found := m.TaskWorkerMap[tEvent.Id]` — the key is the id of
the event itself, not of the embedded task, while the map is populated on
line 189 with task ids only. -/

inductive SendWorkOutcome where
  /-- Stored-task `Get` failed; the event is abandoned. -/
  | storeGetFailed
  /-- Dropped: a follow-up event whose target state is not `Completed`. -/
  | droppedNonCompleted
  /-- Dropped: the transition to `Completed` is illegal from the stored
  state. -/
  | droppedIllegalTransition
  /-- `stopTask` runs: a DELETE is issued to the named worker (with the
  node's `TaskCount` decremented on a 204). -/
  | stopRequested (workerName : String)
  /-- `selectWorker` failed; the event is abandoned. -/
  | noWorkerSelected
  /-- New-task path: the task is bound to the named node and POSTed to it. -/
  | dispatched (nodeName : String)
deriving DecidableEq, Repr

structure ManagerMaps where
  taskWorkerMap : GoMap Nat String
  taskDb : GoMap Nat Task

def sendWork (selectWorkerOracle : Task → Option String) (m : ManagerMaps)
    (tEvent : TaskEvent) : SendWorkOutcome :=
  match m.taskWorkerMap tEvent.Id with
  | some taskWorker =>
    match m.taskDb tEvent.Task.Id with
    | none => .storeGetFailed
    | some persistedTask =>
      if tEvent.State ≠ .completed then .droppedNonCompleted
      else if ValidStateTransition persistedTask.State tEvent.State then
        .stopRequested taskWorker
      else .droppedIllegalTransition
  | none =>
    match selectWorkerOracle tEvent.Task with
    | none => .noWorkerSelected
    | some nodeName => .dispatched nodeName

/-- C2 failing input: the stop-path of `sendWork` keys `TaskWorkerMap` by the
event id.  A dequeued follow-up event carrying a fresh event id (2) for a
task (1) that is mapped to worker "w1" and stored in state `Running`, with
target state `Completed` and a legal transition, is not answered with a
DELETE to "w1": the lookup misses and the event is re-dispatched through the
scheduler to a newly selected node. -/
theorem sendWork_followup_event_redispatched :
    sendWork (fun _ => some "w2")
      { taskWorkerMap := GoMap.empty.write 1 "w1",
        taskDb := GoMap.empty.write 1 { Id := 1, State := .running } }
      { Id := 2, State := .completed,
        Task := { Id := 1, State := .running } } =
      .dispatched "w2" ∧
    (GoMap.empty.write 1 "w1" : GoMap Nat String) 1 = some "w1" ∧
    ValidStateTransition .running .completed = true ∧
    sendWork (fun _ => some "w2")
      { taskWorkerMap := GoMap.empty.write 1 "w1",
        taskDb := GoMap.empty.write 1 { Id := 1, State := .running } }
      { Id := 2, State := .completed,
        Task := { Id := 1, State := .running } } ≠
      .stopRequested "w1" := by
  refine ⟨rfl, rfl, rfl, ?_⟩
  decide

/-! ## Scheduler pick loops

Both `RoundRobin.Pick` (src/scheduler/round_robin.go lines 39-53) and
`Epvm.pick` (src/scheduler/epvm.go lines 72-87) carry a running lowest
score and replace the selection on a strict `<`; the round-robin loop
re-scans the full node list starting from `nodes[0]`, the epvm loop starts
at index 1.  `selectLowestLoop` is the common loop body; each entry reads
the score map by node name, absent names reading as `0.0`. -/

def selectLowestLoop (score : Node → ℚ) : List Node → ℚ → Node → Node
  | [], _, selected => selected
  | n :: rest, lowest, selected =>
    if score n < lowest then selectLowestLoop score rest (score n) n
    else selectLowestLoop score rest lowest selected

/-- `RoundRobin.Pick`: guards the empty list, then folds the strict-lowest
loop over the whole node list seeded with `nodes[0]`. -/
def roundRobinPick (scores : GoMap String ℚ) (nodes : List Node) :
    Option Node :=
  match nodes with
  | [] => none
  | n0 :: rest =>
    some (selectLowestLoop (fun n => scores.read n.Name) (n0 :: rest)
      (scores.read n0.Name) n0)

/-- `Epvm.pick`: guards the empty list, then folds the strict-lowest loop
over the candidates from index 1 seeded with `candidates[0]`. -/
def epvmPick (scores : GoMap String ℚ) : List Node → Option Node
  | [] => none
  | c0 :: rest =>
    some (selectLowestLoop (fun n => scores.read n.Name) rest
      (scores.read c0.Name) c0)

theorem selectLowestLoop_spec (score : Node → ℚ) :
    ∀ (l : List Node) (selected : Node),
      (selectLowestLoop score l (score selected) selected = selected ∧
        ∀ n ∈ l, score selected ≤ score n) ∨
      (∃ (i : Nat) (h : i < l.length),
        selectLowestLoop score l (score selected) selected = l.get ⟨i, h⟩ ∧
        score (l.get ⟨i, h⟩) < score selected ∧
        (∀ n ∈ l, score (l.get ⟨i, h⟩) ≤ score n) ∧
        (∀ (j : Nat) (hj : j < l.length), j < i →
          score (l.get ⟨i, h⟩) < score (l.get ⟨j, hj⟩))) := by
  intro l
  induction l with
  | nil =>
    intro selected
    left
    exact ⟨rfl, by simp⟩
  | cons n rest ih =>
    intro selected
    by_cases hlt : score n < score selected
    · rcases ih n with ⟨heq, hmin⟩ | ⟨i, hi, heq, hsel, hmin, hfirst⟩
      · right
        refine ⟨0, by simp, ?_, ?_, ?_, ?_⟩
        · simpa [selectLowestLoop, hlt] using heq
        · exact hlt
        · intro m hm
          rcases List.mem_cons.mp hm with hm | hm
          · subst hm; exact le_refl _
          · exact hmin m hm
        · intro j hj hj0
          omega
      · right
        refine ⟨i + 1, by simpa using Nat.succ_lt_succ hi, ?_, ?_, ?_, ?_⟩
        · simpa [selectLowestLoop, hlt] using heq
        · exact lt_trans hsel hlt
        · intro m hm
          rcases List.mem_cons.mp hm with hm | hm
          · subst hm; exact le_of_lt hsel
          · exact hmin m hm
        · intro j hj hjlt
          match j, hj with
          | 0, hj => exact hsel
          | k + 1, hj => exact hfirst k (by simpa using Nat.lt_of_succ_lt_succ hj) (by omega)
    · have hge : score selected ≤ score n := le_of_not_lt hlt
      rcases ih selected with ⟨heq, hmin⟩ | ⟨i, hi, heq, hsel, hmin, hfirst⟩
      · left
        refine ⟨?_, ?_⟩
        · simpa [selectLowestLoop, hlt] using heq
        · intro m hm
          rcases List.mem_cons.mp hm with hm | hm
          · subst hm; exact hge
          · exact hmin m hm
      · right
        refine ⟨i + 1, by simpa using Nat.succ_lt_succ hi, ?_, ?_, ?_, ?_⟩
        · simpa [selectLowestLoop, hlt] using heq
        · exact hsel
        · intro m hm
          rcases List.mem_cons.mp hm with hm | hm
          · subst hm; exact le_trans (le_of_lt hsel) hge
          · exact hmin m hm
        · intro j hj hjlt
          match j, hj with
          | 0, hj => exact lt_of_lt_of_le hsel hge
          | k + 1, hj => exact hfirst k (by simpa using Nat.lt_of_succ_lt_succ hj) (by omega)

/-- Shared first-argmin consequence for loops seeded with the head of a
nonempty list: the result is the earliest position attaining the minimal
score. -/
theorem selectLowest_first_argmin (score : Node → ℚ) (c0 : Node)
    (rest : List Node) :
    ∃ (i : Nat) (h : i < (c0 :: rest).length),
      selectLowestLoop score rest (score c0) c0 = (c0 :: rest).get ⟨i, h⟩ ∧
      (∀ (j : Nat) (hj : j < (c0 :: rest).length),
        score ((c0 :: rest).get ⟨i, h⟩) ≤ score ((c0 :: rest).get ⟨j, hj⟩)) ∧
      (∀ (j : Nat) (hj : j < (c0 :: rest).length), j < i →
        score ((c0 :: rest).get ⟨i, h⟩) < score ((c0 :: rest).get ⟨j, hj⟩)) := by
  rcases selectLowestLoop_spec score rest c0 with ⟨heq, hmin⟩ |
    ⟨i, hi, heq, hsel, hmin, hfirst⟩
  · refine ⟨0, by simp, heq, ?_, ?_⟩
    · intro j hj
      match j, hj with
      | 0, hj => exact le_refl _
      | k + 1, hj => exact hmin _ (rest.get_mem _ _)
    · intro j hj hj0
      omega
  · refine ⟨i + 1, by simpa using Nat.succ_lt_succ hi, heq, ?_, ?_⟩
    · intro j hj
      match j, hj with
      | 0, hj => exact le_of_lt hsel
      | k + 1, hj => exact hmin _ (rest.get_mem _ _)
    · intro j hj hjlt
      match j, hj with
      | 0, hj => exact hsel
      | k + 1, hj => exact hfirst k (by simpa using Nat.lt_of_succ_lt_succ hj) (by omega)

/-! ## Round-robin scheduler

`RoundRobin.Score` from src/scheduler/round_robin.go lines 16-37: computes
the next index (wrapping at `len(nodes)-1`), stores it in `LastWorker`, and
builds a map scoring `0.1` for that index and `1` for every other node.
The Go floats `0.1` and `1` only ever feed `<` comparisons, so they are
embedded exactly as rationals. -/

structure RoundRobin where
  LastWorker : Int := 0
deriving DecidableEq, Repr

def buildRoundRobinScores (newWorker : Int) :
    List Node → Int → GoMap String ℚ → GoMap String ℚ
  | [], _, scores => scores
  | n :: rest, i, scores =>
    buildRoundRobinScores newWorker rest (i + 1)
      (scores.write n.Name (if i = newWorker then 0.1 else 1))

def roundRobinScore (r : RoundRobin) (nodes : List Node) :
    GoMap String ℚ × RoundRobin :=
  if nodes.length = 0 then (GoMap.empty, r)
  else
    let newWorker : Int :=
      if r.LastWorker = (nodes.length : Int) - 1 then 0 else r.LastWorker + 1
    (buildRoundRobinScores newWorker nodes 0 GoMap.empty,
      { LastWorker := newWorker })

theorem buildRoundRobinScores_absent (w : Int) :
    ∀ (l : List Node) (i : Int) (m : GoMap String ℚ) (name : String),
      name ∉ l.map Node.Name →
      buildRoundRobinScores w l i m name = m name := by
  intro l
  induction l with
  | nil => intro i m name _; rfl
  | cons n rest ih =>
    intro i m name habs
    have hm : name ∉ rest.map Node.Name := by
      intro hmem
      exact habs (by simp [hmem])
    have hne : name ≠ n.Name := by
      intro heq
      exact habs (by simp [heq])
    rw [buildRoundRobinScores, ih _ _ _ hm]
    simp [GoMap.write, hne]

theorem buildRoundRobinScores_read (w : Int) :
    ∀ (l : List Node) (i0 : Int) (m : GoMap String ℚ),
      (l.map Node.Name).Nodup →
      ∀ (j : Nat) (hj : j < l.length),
        (buildRoundRobinScores w l i0 m).read ((l.get ⟨j, hj⟩).Name) =
          if i0 + (j : Int) = w then 0.1 else 1 := by
  intro l
  induction l with
  | nil => intro i0 m _ j hj; exact absurd hj (by simp)
  | cons n rest ih =>
    intro i0 m hnodup j hj
    rw [List.map_cons, List.nodup_cons] at hnodup
    match j, hj with
    | 0, hj =>
      show (buildRoundRobinScores w rest (i0 + 1)
        (m.write n.Name (if i0 = w then 0.1 else 1))).read n.Name = _
      rw [GoMap.read, buildRoundRobinScores_absent w rest _ _ _ hnodup.1]
      simp [GoMap.write]
    | k + 1, hj =>
      have hklt : k < rest.length := Nat.lt_of_succ_lt_succ hj
      have hrec := ih (i0 + 1) (m.write n.Name (if i0 = w then 0.1 else 1))
        hnodup.2 k hklt
      show (buildRoundRobinScores w rest (i0 + 1)
        (m.write n.Name (if i0 = w then 0.1 else 1))).read
          ((rest.get ⟨k, hklt⟩).Name) = _
      rw [hrec]
      have harith : i0 + 1 + (k : Int) = i0 + ((k : Nat) + 1 : Nat) := by
        push_cast
        ring
      rw [harith]

/-- Concrete three-node list for the boundary behaviour of spec section 8:
"with N=3 picks indices 1,2,0,1,2,0, ... starting after lastIndex=0". -/
def rrNodes3 : List Node :=
  [{ Name := "n1" }, { Name := "n2" }, { Name := "n3" }]

/-- Wrapping step of `RoundRobin.Score`: under `0 ≤ LastWorker < N` the next
index is `(LastWorker + 1) % N`. -/
theorem roundRobin_newWorker_mod (lw N : Int) (h0 : 0 ≤ lw) (hN : lw < N) :
    (if lw = N - 1 then 0 else lw + 1) = (lw + 1) % N := by
  by_cases hlast : lw = N - 1
  · subst hlast
    rw [if_pos rfl]
    have : N - 1 + 1 = N := by ring
    rw [this, Int.emod_self]
  · rw [if_neg hlast]
    rw [Int.emod_eq_of_lt (by omega) (by omega)]

/-- C5: with `0 ≤ lastIndex < N` over a non-empty node list, `Score` scores
`0.1` at index `(lastIndex+1) mod N` and `1` elsewhere while advancing
`lastIndex` to that index; `Pick` returns the earliest minimum-score node;
hence one node is always picked, and from `lastIndex = 0` over three nodes
the successive calls pick indices 1, 2, 0 and return the state to
`lastIndex = 0`, repeating 1, 2, 0, 1, 2, 0, ... -/
theorem roundRobin_scores_and_picks :
    (∀ (r : RoundRobin) (nodes : List Node),
      0 ≤ r.LastWorker → r.LastWorker < (nodes.length : Int) →
      ((roundRobinScore r nodes).2.LastWorker =
        (r.LastWorker + 1) % (nodes.length : Int)) ∧
      ((nodes.map Node.Name).Nodup →
        ∀ (j : Nat) (hj : j < nodes.length),
          (roundRobinScore r nodes).1.read ((nodes.get ⟨j, hj⟩).Name) =
            if (j : Int) = (r.LastWorker + 1) % (nodes.length : Int)
            then 0.1 else 1)) ∧
    (∀ (scores : GoMap String ℚ) (nodes : List Node), nodes ≠ [] →
      ∃ (i : Nat) (h : i < nodes.length),
        roundRobinPick scores nodes = some (nodes.get ⟨i, h⟩) ∧
        (∀ (j : Nat) (hj : j < nodes.length),
          scores.read ((nodes.get ⟨i, h⟩).Name) ≤
            scores.read ((nodes.get ⟨j, hj⟩).Name)) ∧
        (∀ (j : Nat) (hj : j < nodes.length), j < i →
          scores.read ((nodes.get ⟨i, h⟩).Name) <
            scores.read ((nodes.get ⟨j, hj⟩).Name))) ∧
    (∀ (scores : GoMap String ℚ) (n : Node),
      roundRobinPick scores [n] = some n) ∧
    ((roundRobinScore { LastWorker := 0 } rrNodes3).2 = { LastWorker := 1 } ∧
      roundRobinPick (roundRobinScore { LastWorker := 0 } rrNodes3).1 rrNodes3 =
        some { Name := "n2" } ∧
      (roundRobinScore { LastWorker := 1 } rrNodes3).2 = { LastWorker := 2 } ∧
      roundRobinPick (roundRobinScore { LastWorker := 1 } rrNodes3).1 rrNodes3 =
        some { Name := "n3" } ∧
      (roundRobinScore { LastWorker := 2 } rrNodes3).2 = { LastWorker := 0 } ∧
      roundRobinPick (roundRobinScore { LastWorker := 2 } rrNodes3).1 rrNodes3 =
        some { Name := "n1" }) := by
  refine ⟨?_, ?_, ?_, ?_⟩
  · intro r nodes h0 hN
    have hne : ¬ nodes.length = 0 := by
      intro h
      rw [h] at hN
      simp at hN
      omega
    have hw := roundRobin_newWorker_mod r.LastWorker (nodes.length : Int) h0 hN
    constructor
    · simp only [roundRobinScore, if_neg hne]
      exact hw
    · intro hnodup j hj
      simp only [roundRobinScore, if_neg hne]
      rw [buildRoundRobinScores_read _ nodes 0 GoMap.empty hnodup j hj, hw]
      simp
  · intro scores nodes hne
    match nodes, hne with
    | n0 :: rest, _ =>
      have hstep : selectLowestLoop (fun n => scores.read n.Name) (n0 :: rest)
          (scores.read n0.Name) n0 =
          selectLowestLoop (fun n => scores.read n.Name) rest
            (scores.read n0.Name) n0 := by
        simp [selectLowestLoop]
      obtain ⟨i, h, heq, hmin, hfirst⟩ :=
        selectLowest_first_argmin (fun n => scores.read n.Name) n0 rest
      exact ⟨i, h, by simp [roundRobinPick, hstep, heq], hmin, hfirst⟩
  · intro scores n
    simp [roundRobinPick, selectLowestLoop]
  · refine ⟨?_, ?_, ?_, ?_, ?_, ?_⟩ <;>
      norm_num +decide [roundRobinPick, roundRobinScore, buildRoundRobinScores,
        selectLowestLoop, GoMap.read, GoMap.write, GoMap.empty, rrNodes3]

/-- C5 witness: the general parts instantiated on the concrete three-node
list at `lastIndex = 0`: the state advances to 1, node index 1 gets score
`0.1`, node index 0 gets score `1`, and `Pick` picks an index-0-or-later
minimum on a singleton. -/
theorem roundRobin_scores_and_picks_witness :
    (roundRobinScore { LastWorker := 0 } rrNodes3).2.LastWorker =
      (0 + 1) % ((rrNodes3.length : Int)) ∧
    (roundRobinScore { LastWorker := 0 } rrNodes3).1.read
      ((rrNodes3.get ⟨1, by decide⟩).Name) = 0.1 ∧
    (roundRobinScore { LastWorker := 0 } rrNodes3).1.read
      ((rrNodes3.get ⟨0, by decide⟩).Name) = 1 ∧
    roundRobinPick GoMap.empty [{ Name := "solo" }] = some { Name := "solo" } := by
  have h := roundRobin_scores_and_picks
  have hgen := h.1 { LastWorker := 0 } rrNodes3 (by decide) (by decide)
  have hnodup : (rrNodes3.map Node.Name).Nodup := by decide
  refine ⟨hgen.1, ?_, ?_, h.2.2.1 GoMap.empty { Name := "solo" }⟩
  · rw [hgen.2 hnodup 1 (by decide)]
    norm_num [rrNodes3]
  · rw [hgen.2 hnodup 0 (by decide)]
    norm_num [rrNodes3]

/-- C10: `Epvm.pick` returns the first candidate attaining the minimal
effective score, where a candidate missing from the score map (as happens
when `Score` skipped it after a stats or CPU-sampling failure) reads as
score `0`; such a candidate is therefore preferred over every candidate
whose computed score is positive. -/
theorem epvmPick_first_min_absent_read_as_zero :
    (∀ (m : GoMap String ℚ) (name : String),
      m name = none → m.read name = 0) ∧
    (∀ (m : GoMap String ℚ) (cs : List Node), cs ≠ [] →
      ∃ (i : Nat) (h : i < cs.length),
        epvmPick m cs = some (cs.get ⟨i, h⟩) ∧
        (∀ (j : Nat) (hj : j < cs.length),
          m.read ((cs.get ⟨i, h⟩).Name) ≤ m.read ((cs.get ⟨j, hj⟩).Name)) ∧
        (∀ (j : Nat) (hj : j < cs.length), j < i →
          m.read ((cs.get ⟨i, h⟩).Name) < m.read ((cs.get ⟨j, hj⟩).Name))) ∧
    (∀ (m : GoMap String ℚ) (cs : List Node) (c r : Node),
      c ∈ cs → m c.Name = none → epvmPick m cs = some r →
      m.read r.Name ≤ 0 ∧ ∀ n ∈ cs, 0 < m.read n.Name → r ≠ n) := by
  have hread0 : ∀ (m : GoMap String ℚ) (name : String),
      m name = none → m.read name = 0 := by
    intro m name h
    simp [GoMap.read, h]
  have hargmin : ∀ (m : GoMap String ℚ) (cs : List Node), cs ≠ [] →
      ∃ (i : Nat) (h : i < cs.length),
        epvmPick m cs = some (cs.get ⟨i, h⟩) ∧
        (∀ (j : Nat) (hj : j < cs.length),
          m.read ((cs.get ⟨i, h⟩).Name) ≤ m.read ((cs.get ⟨j, hj⟩).Name)) ∧
        (∀ (j : Nat) (hj : j < cs.length), j < i →
          m.read ((cs.get ⟨i, h⟩).Name) < m.read ((cs.get ⟨j, hj⟩).Name)) := by
    intro m cs hne
    match cs, hne with
    | c0 :: rest, _ =>
      obtain ⟨i, h, heq, hmin, hfirst⟩ :=
        selectLowest_first_argmin (fun n => m.read n.Name) c0 rest
      exact ⟨i, h, by simp [epvmPick, heq], hmin, hfirst⟩
  refine ⟨hread0, hargmin, ?_⟩
  intro m cs c r hmem habs hpick
  have hne : cs ≠ [] := by
    intro h
    subst h
    exact absurd hmem (List.not_mem_nil c)
  obtain ⟨i, h, heq, hmin, _⟩ := hargmin m cs hne
  have hr : r = cs.get ⟨i, h⟩ := by
    rw [hpick] at heq
    exact Option.some.inj heq
  obtain ⟨⟨j, hj⟩, hcj⟩ := List.mem_iff_get.mp hmem
  have hle : m.read r.Name ≤ m.read c.Name := by
    rw [hr]
    have hj2 := hmin j hj
    rw [hcj] at hj2
    exact hj2
  have hc0 : m.read c.Name = 0 := hread0 m c.Name habs
  refine ⟨by rw [← hc0]; exact hle, ?_⟩
  intro n _ hpos hrn
  rw [hc0] at hle
  rw [hrn] at hle
  exact absurd (lt_of_lt_of_le hpos hle) (lt_irrefl 0)

/-- C10 witness: over candidates named "a" (absent from the score map) and
"b" (scored 5), the picked node is "a", the absent name reads as 0 and the
pick differs from the positively scored candidate. -/
theorem epvmPick_first_min_absent_read_as_zero_witness :
    (GoMap.empty.write "b" (5 : ℚ)).read "a" ≤ 0 ∧
    ({ Name := "a" } : Node) ≠ ({ Name := "b" } : Node) ∧
    epvmPick (GoMap.empty.write "b" (5 : ℚ))
      [{ Name := "a" }, { Name := "b" }] = some { Name := "a" } := by
  have hpick : epvmPick (GoMap.empty.write "b" (5 : ℚ))
      [{ Name := "a" }, { Name := "b" }] = some { Name := "a" } := by
    norm_num +decide [epvmPick, selectLowestLoop, GoMap.read, GoMap.write,
      GoMap.empty]
  have h := epvmPick_first_min_absent_read_as_zero.2.2
    (GoMap.empty.write "b" (5 : ℚ)) [{ Name := "a" }, { Name := "b" }]
    { Name := "a" } { Name := "a" } (by decide)
    (by simp [GoMap.write, GoMap.empty]) hpick
  refine ⟨h.1, ?_, hpick⟩
  exact h.2 { Name := "b" } (by decide)
    (by norm_num +decide [GoMap.read, GoMap.write, GoMap.empty])

/-! ## Load-aware scoring formulas

`Epvm.score` per-node arithmetic from src/scheduler/epvm.go lines 58-67.
The `float64` expressions are embedded over `ℝ` with `math.Pow` as the real
power (`rpow`); the claims about these formulas are algebraic identities of
the written expressions, as in the spec.  `cpuLoad`, `newMemPercent` and
`memoryPercentAllocated` are the (stats-oracle dependent) real inputs. -/

noncomputable def LIEB : ℝ := 1.53960071783900203869

noncomputable def maxJobs : ℝ := 4.0

/-- Source line 65:
`cpuCost := math.Pow(LIEB, cpuLoad) + math.Pow(LIEB, float64(node.TaskCount+1)/maxJobs)
- math.Pow(LIEB, cpuLoad) - math.Pow(LIEB, float64(node.TaskCount)/float64(maxJobs))`. -/
noncomputable def cpuCost (cpuLoad : ℝ) (taskCount : Int) : ℝ :=
  LIEB ^ cpuLoad + LIEB ^ (((taskCount : ℝ) + 1) / maxJobs)
    - LIEB ^ cpuLoad - LIEB ^ ((taskCount : ℝ) / maxJobs)

/-- Source line 64 (same shape with the memory-percent projections). -/
noncomputable def memCost (newMemPercent memoryPercentAllocated : ℝ)
    (taskCount : Int) : ℝ :=
  LIEB ^ newMemPercent + LIEB ^ (((taskCount : ℝ) + 1) / maxJobs)
    - LIEB ^ memoryPercentAllocated - LIEB ^ ((taskCount : ℝ) / maxJobs)

/-- Source line 67: `nodeScores[node.Name] = memCost + cpuCost`. -/
noncomputable def epvmNodeScore (cpuLoad newMemPercent memoryPercentAllocated : ℝ)
    (taskCount : Int) : ℝ :=
  memCost newMemPercent memoryPercentAllocated taskCount + cpuCost cpuLoad taskCount

theorem cpuCost_eq_taskCount_delta (cpuLoad : ℝ) (taskCount : Int) :
    cpuCost cpuLoad taskCount =
      LIEB ^ (((taskCount : ℝ) + 1) / maxJobs) -
        LIEB ^ ((taskCount : ℝ) / maxJobs) := by
  unfold cpuCost
  ring

theorem cpuCost_pos (cpuLoad : ℝ) (taskCount : Int) :
    0 < cpuCost cpuLoad taskCount := by
  rw [cpuCost_eq_taskCount_delta]
  have hL1 : (1 : ℝ) < LIEB := by norm_num [LIEB]
  have hmx : (0 : ℝ) < maxJobs := by norm_num [maxJobs]
  have hlt : (taskCount : ℝ) / maxJobs < ((taskCount : ℝ) + 1) / maxJobs := by
    apply (div_lt_div_iff_of_pos_right hmx).mpr
    linarith
  have hexp := (Real.rpow_lt_rpow_left_iff hL1).mpr hlt
  linarith

/-- C6 counterexample: at `cpuLoad = 0`, `TaskCount = 0` the `cpuCost` term is
not zero (it is `LIEB ^ (1/4) - 1 > 0`), so the node's score is not its
`memCost` term alone. -/
theorem cpuCost_nonzero_at_origin :
    cpuCost 0 0 ≠ 0 ∧ epvmNodeScore 0 0 0 0 ≠ memCost 0 0 0 := by
  have hpos := cpuCost_pos 0 0
  refine ⟨ne_of_gt hpos, ?_⟩
  unfold epvmNodeScore
  intro h
  have hz : cpuCost 0 0 = 0 := by linarith
  exact absurd hz (ne_of_gt hpos)

/-- C6 amended: the two `LIEB ^ cpuLoad` terms of `cpuCost` cancel, so
`cpuCost` is independent of `cpuLoad` and equals
`LIEB ^ ((TaskCount+1)/maxJobs) - LIEB ^ (TaskCount/maxJobs)`, which is
strictly positive; the node's score is `memCost` plus this TaskCount-only
term, not `memCost` alone. -/
theorem cpuCost_independent_of_cpuLoad :
    ∀ (c c2 : ℝ) (taskCount : Int),
      cpuCost c taskCount = cpuCost c2 taskCount ∧
      cpuCost c taskCount =
        LIEB ^ (((taskCount : ℝ) + 1) / maxJobs) -
          LIEB ^ ((taskCount : ℝ) / maxJobs) ∧
      0 < cpuCost c taskCount ∧
      (∀ nm mp : ℝ, epvmNodeScore c nm mp taskCount =
        memCost nm mp taskCount + cpuCost c taskCount) := by
  intro c c2 taskCount
  refine ⟨?_, cpuCost_eq_taskCount_delta c taskCount, cpuCost_pos c taskCount,
    fun nm mp => rfl⟩
  rw [cpuCost_eq_taskCount_delta, cpuCost_eq_taskCount_delta]

end Orchestrator
